import Mathlib

/-!
Shallow embedding of the filter-and-aggregate core of `src/app.py`
(a Streamlit dashboard over a static collection of pre-scored news
articles).  Dataframes are modelled as lists of `Article` records,
dataframe selections as `List.filter`, group-bys as filters over the
distinct keys, and Python exceptions as `Except` values.  Python string
comparison (code-point lexicographic) is modelled by an executable
character-list comparison, because the claims about the snapshot loader
quantify over it.
-/

namespace RegulationNews

/-- One article record, mirroring the columns of the loaded dataframe
used by `src/app.py` (title, publishedAt, market_name, category,
relevance_score, impact_level, key_regulators, source_name,
what_happened). -/
structure Article where
  title : String
  publishedAt : String
  market_name : String
  category : String
  relevance_score : Int
  impact_level : String
  key_regulators : List String
  source_name : String
  what_happened : String
  deriving DecidableEq, Repr

/-- Sidebar filter state of `src/app.py` (lines 90-117): the selected
markets, the minimum relevance slider value, the selected categories and
the selected impact levels. -/
structure FilterState where
  selected_markets : List String
  min_relevance : Int
  selected_categories : List String
  selected_impact : List String
  deriving DecidableEq, Repr

/-- Errors of the embedded script.  The constructors `indexError`,
`keyError` and `zeroDivisionError` model the Python built-in exceptions
the script can actually raise.  The constructors `noSnapshotFound` and
`unmappedMarket` are modelled from the spec: they are the named loader
and view errors of the spec error taxonomy; `src/app.py` defines no such
errors, so no code path can ever produce them. -/
inductive PyError where
  | indexError : PyError
  | keyError : String → PyError
  | zeroDivisionError : PyError
  | noSnapshotFound : PyError
  | unmappedMarket : String → PyError
  deriving DecidableEq, Repr

/-- The filter of `src/app.py` lines 120-125: conjunction of market
membership, relevance at least the slider minimum, category membership
and impact-level membership. -/
def df_filtered (fs : FilterState) (df : List Article) : List Article :=
  df.filter (fun r =>
    r.market_name ∈ fs.selected_markets ∧
    r.relevance_score ≥ fs.min_relevance ∧
    r.category ∈ fs.selected_categories ∧
    r.impact_level ∈ fs.selected_impact)

/-- Code-point lexicographic comparison of character lists, the order in
which Python compares strings (and hence sorts snapshot filenames). -/
def chars_le : List Char → List Char → Bool
  | [], _ => true
  | _ :: _, [] => false
  | a :: as, b :: bs => if a < b then true else if b < a then false else chars_le as bs

/-- Python string order `a <= b`, as a proposition on Lean strings. -/
def str_le (a b : String) : Prop := chars_le a.toList b.toList = true

instance : DecidableRel str_le := fun a b => by
  unfold str_le
  infer_instance

theorem chars_le_refl : ∀ as : List Char, chars_le as as = true := by
  intro as
  induction as with
  | nil => rfl
  | cons a t ih => simp [chars_le, ih]

theorem chars_le_total : ∀ as bs : List Char, chars_le as bs = true ∨ chars_le bs as = true := by
  intro as
  induction as with
  | nil => intro bs; left; rfl
  | cons a t ih =>
    intro bs
    cases bs with
    | nil => right; rfl
    | cons b u =>
      by_cases hab : a < b
      · left; simp [chars_le, hab]
      · by_cases hba : b < a
        · right; simp [chars_le, hba]
        · have hae : a = b := le_antisymm (not_lt.mp hba) (not_lt.mp hab)
          subst hae
          rcases ih u with h | h
          · left; simp [chars_le, h]
          · right; simp [chars_le, h]

theorem chars_le_trans : ∀ as bs cs : List Char,
    chars_le as bs = true → chars_le bs cs = true → chars_le as cs = true := by
  intro as
  induction as with
  | nil => intro bs cs _ _; rfl
  | cons a t ih =>
    intro bs cs h1 h2
    cases bs with
    | nil => simp [chars_le] at h1
    | cons b u =>
      cases cs with
      | nil => simp [chars_le] at h2
      | cons c v =>
        by_cases hab : a < b
        · by_cases hbc : b < c
          · have : a < c := lt_trans hab hbc
            simp [chars_le, this]
          · by_cases hcb : c < b
            · simp [chars_le, hbc, hcb] at h2
            · have : b = c := le_antisymm (not_lt.mp hcb) (not_lt.mp hbc)
              subst this
              simp [chars_le, hab]
        · by_cases hba : b < a
          · simp [chars_le, hab, hba] at h1
          · have hae : a = b := le_antisymm (not_lt.mp hba) (not_lt.mp hab)
            subst hae
            simp [chars_le, lt_irrefl] at h1
            by_cases hbc : a < c
            · simp [chars_le, hbc]
            · by_cases hcb : c < a
              · simp [chars_le, hbc, hcb] at h2
              · have : a = c := le_antisymm (not_lt.mp hcb) (not_lt.mp hbc)
                subst this
                simp only [chars_le, lt_irrefl, if_false] at h2
                simp only [chars_le, lt_irrefl, if_false]
                exact ih u v h1 h2

instance : IsTotal String str_le := ⟨fun a b => chars_le_total a.toList b.toList⟩

instance : IsTrans String str_le := ⟨fun a b c => chars_le_trans a.toList b.toList c.toList⟩

theorem str_le_refl (a : String) : str_le a a := chars_le_refl a.toList

/-- Streaming keep-first deduplication by a key function, with the set
of already-seen keys as accumulator.  This is the semantics of the
pandas idiom `drop_duplicates(subset=k, keep="first")` used by
`src/app.py` line 405, and (with the identity key) of
`Series.unique()`. -/
def dropDupAux {α κ : Type} [DecidableEq κ] (key : α → κ) (seen : List κ) : List α → List α
  | [] => []
  | a :: l =>
    if key a ∈ seen then dropDupAux key seen l
    else a :: dropDupAux key (key a :: seen) l

/-- Distinct values of a list in first-occurrence order, the semantics
of pandas `Series.unique()` used by `src/app.py` (lines 92, 108, 322). -/
def uniqueFirst {α : Type} [DecidableEq α] (l : List α) : List α := dropDupAux id [] l

theorem dropDupAux_sublist {α κ : Type} [DecidableEq κ] (key : α → κ) :
    ∀ (l : List α) (seen : List κ), (dropDupAux key seen l).Sublist l := by
  intro l
  induction l with
  | nil => intro seen; simp [dropDupAux]
  | cons a t ih =>
    intro seen
    by_cases h : key a ∈ seen
    · simp only [dropDupAux, if_pos h]
      exact (ih seen).cons a
    · simp only [dropDupAux, if_neg h]
      exact (ih (key a :: seen)).cons₂ a

theorem key_not_seen_of_mem_dropDupAux {α κ : Type} [DecidableEq κ] (key : α → κ) :
    ∀ (l : List α) (seen : List κ) (a : α), a ∈ dropDupAux key seen l → key a ∉ seen := by
  intro l
  induction l with
  | nil => intro seen a h; simp [dropDupAux] at h
  | cons b t ih =>
    intro seen a h
    by_cases hb : key b ∈ seen
    · simp only [dropDupAux, if_pos hb] at h
      exact ih seen a h
    · simp only [dropDupAux, if_neg hb, List.mem_cons] at h
      rcases h with rfl | h
      · exact hb
      · have := ih (key b :: seen) a h
        exact fun hs => this (List.mem_cons_of_mem _ hs)

theorem nodup_keys_dropDupAux {α κ : Type} [DecidableEq κ] (key : α → κ) :
    ∀ (l : List α) (seen : List κ), ((dropDupAux key seen l).map key).Nodup := by
  intro l
  induction l with
  | nil => intro seen; simp [dropDupAux]
  | cons b t ih =>
    intro seen
    by_cases hb : key b ∈ seen
    · simp only [dropDupAux, if_pos hb]
      exact ih seen
    · simp only [dropDupAux, if_neg hb, List.map_cons, List.nodup_cons]
      refine ⟨?_, ih (key b :: seen)⟩
      intro hmem
      rcases List.mem_map.mp hmem with ⟨a, ha, hk⟩
      exact (key_not_seen_of_mem_dropDupAux key t (key b :: seen) a ha)
        (by simp [hk])

theorem dropDupAux_covers {α κ : Type} [DecidableEq κ] (key : α → κ) :
    ∀ (l : List α) (seen : List κ) (a : α), a ∈ l → key a ∉ seen →
      ∃ b ∈ dropDupAux key seen l, key b = key a := by
  intro l
  induction l with
  | nil => intro seen a h; simp at h
  | cons b t ih =>
    intro seen a ha hs
    by_cases hb : key b ∈ seen
    · simp only [dropDupAux, if_pos hb]
      rcases List.mem_cons.mp ha with rfl | ha'
      · exact absurd hb hs
      · exact ih seen a ha' hs
    · simp only [dropDupAux, if_neg hb]
      by_cases hk : key a = key b
      · exact ⟨b, List.mem_cons_self b _, hk.symm⟩
      · rcases List.mem_cons.mp ha with rfl | ha'
        · exact absurd rfl hk
        · rcases ih (key b :: seen) a ha'
            (by simp [hs, fun h => hk h]) with ⟨x, hx, hxk⟩
          exact ⟨x, List.mem_cons_of_mem _ hx, hxk⟩

theorem mem_dropDupAux_iff {α κ : Type} [DecidableEq κ] (key : α → κ) :
    ∀ (l : List α) (seen : List κ) (a : α),
      a ∈ dropDupAux key seen l ↔
        ∃ l1 l2, l = l1 ++ a :: l2 ∧ key a ∉ seen ∧ key a ∉ l1.map key := by
  intro l
  induction l with
  | nil =>
    intro seen a
    simp only [dropDupAux, List.not_mem_nil, false_iff]
    rintro ⟨l1, l2, h, -, -⟩
    exact (List.cons_ne_nil a l2) (List.append_eq_nil.mp h.symm).2
  | cons b t ih =>
    intro seen a
    by_cases hb : key b ∈ seen
    · simp only [dropDupAux, if_pos hb]
      rw [ih seen a]
      constructor
      · rintro ⟨l1, l2, ht, hs, h1⟩
        refine ⟨b :: l1, l2, by rw [ht, List.cons_append], hs, ?_⟩
        simp only [List.map_cons, List.mem_cons, not_or]
        exact ⟨fun h => hs (h ▸ hb), h1⟩
      · rintro ⟨l1, l2, ht, hs, h1⟩
        cases l1 with
        | nil =>
          simp only [List.nil_append, List.cons.injEq] at ht
          exact absurd (ht.1 ▸ hb) hs
        | cons c l1' =>
          simp only [List.cons_append, List.cons.injEq] at ht
          simp only [List.map_cons, List.mem_cons, not_or] at h1
          exact ⟨l1', l2, ht.2, hs, h1.2⟩
    · simp only [dropDupAux, if_neg hb, List.mem_cons]
      rw [ih (key b :: seen) a]
      constructor
      · rintro (rfl | ⟨l1, l2, ht, hs, h1⟩)
        · exact ⟨[], t, rfl, hb, by simp⟩
        · simp only [List.mem_cons, not_or] at hs
          refine ⟨b :: l1, l2, by rw [ht, List.cons_append], hs.2, ?_⟩
          simp only [List.map_cons, List.mem_cons, not_or]
          exact ⟨hs.1, h1⟩
      · rintro ⟨l1, l2, ht, hs, h1⟩
        cases l1 with
        | nil =>
          simp only [List.nil_append, List.cons.injEq] at ht
          exact Or.inl ht.1.symm
        | cons c l1' =>
          simp only [List.cons_append, List.cons.injEq] at ht
          simp only [List.map_cons, List.mem_cons, not_or] at h1
          refine Or.inr ⟨l1', l2, ht.2, ?_, h1.2⟩
          simp only [List.mem_cons, not_or]
          exact ⟨ht.1 ▸ h1.1, hs⟩

theorem dropDupAux_idem {α κ : Type} [DecidableEq κ] (key : α → κ) :
    ∀ (l : List α) (seen : List κ),
      dropDupAux key seen (dropDupAux key seen l) = dropDupAux key seen l := by
  intro l
  induction l with
  | nil => intro seen; rfl
  | cons a t ih =>
    intro seen
    by_cases h : key a ∈ seen
    · simp only [dropDupAux, if_pos h]
      exact ih seen
    · simp only [dropDupAux, if_neg h]
      rw [ih (key a :: seen)]

theorem mem_uniqueFirst {α : Type} [DecidableEq α] (l : List α) (a : α) :
    a ∈ uniqueFirst l ↔ a ∈ l := by
  constructor
  · intro h
    exact (dropDupAux_sublist id l []).mem h
  · intro h
    rcases dropDupAux_covers id l [] a h (List.not_mem_nil _) with ⟨b, hb, hk⟩
    simpa [show b = a from hk] using hb

theorem nodup_uniqueFirst {α : Type} [DecidableEq α] (l : List α) :
    (uniqueFirst l).Nodup := by
  have := nodup_keys_dropDupAux (id : α → α) l []
  simpa [uniqueFirst] using this

theorem sum_map_ite_count {κ : Type} [DecidableEq κ] (b : κ) (x : ℕ) :
    ∀ ks : List κ, (ks.map (fun k => if b = k then x else 0)).sum = ks.count b * x := by
  intro ks
  induction ks with
  | nil => simp
  | cons a t ih =>
    by_cases h : b = a
    · subst h
      simp [List.count_cons, ih, Nat.add_mul, Nat.add_comm]
    · simp [List.count_cons, ih, h, fun hc : a = b => h hc.symm]

theorem sum_map_length_filter {α κ : Type} [DecidableEq κ] (f : α → κ) (ks : List κ)
    (hnd : ks.Nodup) :
    ∀ l : List α, (∀ a ∈ l, f a ∈ ks) →
      (ks.map (fun k => (l.filter (fun a => f a = k)).length)).sum = l.length := by
  intro l
  induction l with
  | nil => intro _; simp
  | cons a t ih =>
    intro hcov
    have hmem : f a ∈ ks := hcov a (List.mem_cons_self a t)
    have ht : ∀ b ∈ t, f b ∈ ks := fun b hb => hcov b (List.mem_cons_of_mem a hb)
    have hpt : ∀ k ∈ ks, ((a :: t).filter (fun x => f x = k)).length
        = (if f a = k then 1 else 0) + (t.filter (fun x => f x = k)).length := by
      intro k _
      by_cases h : f a = k <;> simp [List.filter_cons, h, Nat.add_comm]
    rw [List.map_congr_left hpt, List.sum_map_add, sum_map_ite_count, ih ht,
      List.count_eq_one_of_mem hnd hmem]
    simp [Nat.add_comm]

theorem sorted_le_getLast {α : Type} {r : α → α → Prop} (hrefl : ∀ a, r a a) :
    ∀ (l : List α), l.Sorted r → ∀ (hne : l ≠ []) (x), x ∈ l → r x (l.getLast hne) := by
  intro l
  induction l with
  | nil => intro _ hne; exact absurd rfl hne
  | cons a t ih =>
    intro hs hne x hx
    cases t with
    | nil =>
      simp only [List.mem_singleton] at hx
      subst hx
      exact hrefl x
    | cons b u =>
      rw [List.getLast_cons (List.cons_ne_nil b u)]
      rcases List.mem_cons.mp hx with rfl | hx'
      · exact List.rel_of_sorted_cons hs _ (List.getLast_mem (List.cons_ne_nil b u))
      · exact ih hs.of_cons (List.cons_ne_nil b u) x hx'

/-- True when a filename matches the glob `analyzed_articles_*.json`
used by `load_data` in `src/app.py` line 40. -/
def snapshot_pattern (f : String) : Bool :=
  List.isPrefixOf "analyzed_articles_".toList f.toList &&
  List.isSuffixOf ".json".toList f.toList

/-- The snapshot selection of `load_data` (`src/app.py` lines 38-43):
`sorted(processed_dir.glob(pattern))[-1]`.  The matching filenames are
sorted in Python string order and the last one is taken; indexing `[-1]`
on an empty list raises the built-in IndexError, modelled as
`Except.error PyError.indexError`. -/
def load_data (files : List String) : Except PyError String :=
  match ((files.filter snapshot_pattern).insertionSort str_le).getLast? with
  | none => Except.error PyError.indexError
  | some f => Except.ok f

/-- Mean relevance score of a record collection, as the rational
`sum / count` (pandas `.mean()`). -/
def mean_relevance (l : List Article) : ℚ :=
  (l.map (fun r => (r.relevance_score : ℚ))).sum / (l.length : ℚ)

/-- The four key-insight metrics of `src/app.py` lines 135-165. -/
structure KeyMetrics where
  total_articles : ℕ
  pct_of_total : ℚ
  avg_relevance : ℚ
  high_impact : ℕ
  pct_high_of_filtered : ℚ
  markets_covered : ℕ

/-- The key-insights computation of `src/app.py` lines 135-165, over the
full collection `df` and the filtered collection `dff`.  Column 1
computes `len(df_filtered)/len(df)*100` (integer true division: raises
ZeroDivisionError when `df` is empty); column 3 computes
`high_impact/len(df_filtered)*100`, which raises ZeroDivisionError when
the filtered collection is empty.  The Python code guards neither
division. -/
def key_insights (df dff : List Article) : Except PyError KeyMetrics :=
  if df.length = 0 then Except.error PyError.zeroDivisionError
  else
    let high := (dff.filter (fun r => r.impact_level = "high")).length
    if dff.length = 0 then Except.error PyError.zeroDivisionError
    else Except.ok
      { total_articles := dff.length
        pct_of_total := (dff.length : ℚ) / (df.length : ℚ) * 100
        avg_relevance := mean_relevance dff
        high_impact := high
        pct_high_of_filtered := (high : ℚ) / (dff.length : ℚ) * 100
        markets_covered := (uniqueFirst (dff.map (fun r => r.market_name))).length }

/-- One row of the market-overview summary (`src/app.py` lines 178-182):
market, article count, mean relevance. -/
structure MarketRow where
  market : String
  article_count : ℕ
  avg_relevance : ℚ

/-- One group of the market group-by: its market label, article count
and mean relevance (`src/app.py` lines 178-181). -/
def market_row_of (records : List Article) (m : String) : MarketRow :=
  let grp := records.filter (fun r => r.market_name = m)
  { market := m
    article_count := grp.length
    avg_relevance := mean_relevance grp }

/-- The market-overview aggregation of `src/app.py` lines 178-182:
group by market (pandas sorts the group keys), count and mean the
relevance scores, then sort rows by article count descending. -/
def market_overview (records : List Article) : List MarketRow :=
  (((uniqueFirst (records.map (fun r => r.market_name))).insertionSort str_le).map
    (market_row_of records)).insertionSort (fun a b => b.article_count ≤ a.article_count)

/-- Count of articles with the given market and category: one cell of
`pd.crosstab(df_filtered.market_name, df_filtered.category)`
(`src/app.py` line 266). -/
def ct_cell (records : List Article) (m c : String) : ℕ :=
  (records.filter (fun r => r.market_name = m ∧ r.category = c)).length

/-- Column labels of the cross-tabulation: the distinct categories,
sorted as `pd.crosstab` sorts its axis labels. -/
def ct_cats (records : List Article) : List String :=
  (uniqueFirst (records.map (fun r => r.category))).insertionSort str_le

/-- Row labels of the cross-tabulation before reordering: the distinct
markets, sorted as `pd.crosstab` sorts its axis labels. -/
def ct_markets_sorted (records : List Article) : List String :=
  (uniqueFirst (records.map (fun r => r.market_name))).insertionSort str_le

/-- Row total of the cross-tabulation, `category_market.sum(axis=1)`
(`src/app.py` line 267). -/
def ct_row_total (records : List Article) (m : String) : ℕ :=
  ((ct_cats records).map (fun c => ct_cell records m c)).sum

/-- Row order of the cross-tabulation after
`category_market.sum(axis=1).sort_values(ascending=False)`
(`src/app.py` lines 267-268). -/
def ct_row_order (records : List Article) : List String :=
  (ct_markets_sorted records).insertionSort
    (fun m1 m2 => ct_row_total records m2 ≤ ct_row_total records m1)

/-- A cross-tabulation: row labels, column labels and the cell counts. -/
structure CrossTab where
  rows : List String
  cols : List String
  cell : String → String → ℕ

/-- The category-by-market cross-tabulation with the hard-coded
cross_border_investment reclassification of `src/app.py` lines 266-273.
When a `cross_border_investment` column exists, the code evaluates
`category_market["other"] + category_market["cross_border_investment"]`;
if no `other` column exists this raises the built-in
`KeyError: "other"`, modelled as `Except.error (PyError.keyError
"other")`.  Otherwise the summed counts are assigned to the `other`
column and the `cross_border_investment` column is dropped. -/
def category_market (records : List Article) : Except PyError CrossTab :=
  let rows := ct_row_order records
  let cols := ct_cats records
  if "cross_border_investment" ∈ cols then
    if "other" ∈ cols then
      Except.ok
        { rows := rows
          cols := cols.erase "cross_border_investment"
          cell := fun m c =>
            if c = "other"
            then ct_cell records m "other" + ct_cell records m "cross_border_investment"
            else ct_cell records m c }
    else Except.error (PyError.keyError "other")
  else Except.ok { rows := rows, cols := cols, cell := fun m c => ct_cell records m c }

/-- True for the characters kept by the title-normalization regex
`[^a-z0-9\s]` of `src/app.py` line 404: lowercase ASCII letters, ASCII
digits and ASCII whitespace.  Note that whitespace is kept by the
regex. -/
def keepChar (c : Char) : Bool :=
  ('a' ≤ c ∧ c ≤ 'z') ∨ ('0' ≤ c ∧ c ≤ '9') ∨
    c ∈ [' ', '\t', '\n', '\r', '\x0b', '\x0c']

/-- Title normalization of `src/app.py` line 404:
`title.str.lower().str.replace("[^a-z0-9\s]", "", regex=True)` -
lowercase the title, then drop every character that is not a lowercase
letter, a digit or whitespace. -/
def normalize_title (t : String) : String :=
  String.mk ((t.toList.map Char.toLower).filter keepChar)

/-- Title normalization as the spec words it: lowercase and strip all
non-alphanumeric characters (including whitespace).  Stated only for
comparison with `normalize_title`, which the source derives from a regex
that keeps whitespace. -/
def normalize_title_spec (t : String) : String :=
  String.mk ((t.toList.map Char.toLower).filter
    (fun c => ('a' ≤ c ∧ c ≤ 'z') ∨ ('0' ≤ c ∧ c ≤ '9')))

/-- The deduplication of `src/app.py` lines 403-405:
`drop_duplicates(subset="title_normalized", keep="first")` keyed by the
normalized title. -/
def drop_duplicates (records : List Article) : List Article :=
  dropDupAux (fun r => normalize_title r.title) [] records

/-- The hard-coded source block-list of `src/app.py` line 408. -/
def excluded_sources : List String := ["Economictimes.com", "Bitcoinist", "Cointelegraph"]

/-- The deduplicated, source-filtered collection `df_unique` of
`src/app.py` lines 403-409. -/
def df_unique (records : List Article) : List Article :=
  (drop_duplicates records).filter (fun r => r.source_name ∉ excluded_sources)

/-- The fixed market order of the top-articles table (`src/app.py`
line 412). -/
def tab4_market_order : List String :=
  ["United States", "United Kingdom", "Germany", "Japan", "France"]

/-- Pandas `nlargest(n, "relevance_score")`: sort by relevance score
descending (stable, keeping first occurrences on ties) and take the
first `n` rows. -/
def nlargest_rel (n : ℕ) (l : List Article) : List Article :=
  (l.insertionSort (fun a b => b.relevance_score ≤ a.relevance_score)).take n

/-- The top-5-per-market concatenation of `src/app.py` lines 415-422:
for each market of `tab4_market_order` that occurs in the collection,
take its top 5 records by relevance; markets with no qualifying records
contribute nothing. -/
def top_articles (l : List Article) : List Article :=
  (tab4_market_order.map (fun m =>
    if l.any (fun r => r.market_name = m)
    then nlargest_rel 5 (l.filter (fun r => r.market_name = m))
    else [])).flatten

/-- The fixed market-to-ISO-code mapping of `src/app.py` lines 313-319. -/
def country_iso : List (String × String) :=
  [("United States", "USA"), ("United Kingdom", "GBR"), ("Japan", "JPN"),
   ("Germany", "DEU"), ("France", "FRA")]

/-- The most frequent element of a list together with its count, ties
resolved towards the first-seen element: the semantics of
`Counter(l).most_common(1)[0]` (`src/app.py` line 331). -/
def most_common1 (l : List String) : Option (String × ℕ) :=
  (uniqueFirst l).foldl
    (fun acc s =>
      match acc with
      | none => some (s, l.count s)
      | some (s0, c0) => if c0 < l.count s then some (s, l.count s) else some (s0, c0))
    none

/-- The top-regulator string of `src/app.py` lines 325-334: flatten the
per-article regulator lists; when nonempty, report the most frequent
regulator with its mention count, otherwise the sentinel `N/A`. -/
def top_regulator_str (market_df : List Article) : String :=
  match most_common1 ((market_df.map (fun r => r.key_regulators)).flatten) with
  | none => "N/A"
  | some p => p.1 ++ " (" ++ toString p.2 ++ " mentions)"

/-- Character-level model of Python `str.title()`: uppercase each
letter that follows a non-letter, lowercase the other letters. -/
def py_title_chars : Bool → List Char → List Char
  | _, [] => []
  | prev, c :: cs =>
    (if c.isAlpha then (if prev then c.toLower else c.toUpper) else c) ::
      py_title_chars c.isAlpha cs

/-- The label transform `.replace("_", " ").title()` applied to category
names for display (`src/app.py` line 336). -/
def display_label (s : String) : String :=
  String.mk (py_title_chars false (s.toList.map (fun c => if c = '_' then ' ' else c)))

/-- The most frequent category label of a market group,
`market_df["category"].value_counts().index[0]` followed by the display
transform (`src/app.py` line 336).  The market groups built by the map
view are never empty, so the `getD` default is unreachable. -/
def primary_focus (market_df : List Article) : String :=
  display_label (((most_common1 (market_df.map (fun r => r.category))).map Prod.fst).getD "")

/-- One summary record emitted per market by the geographic aggregation
(`src/app.py` lines 338-346). -/
structure MapRow where
  market : String
  iso_code : String
  article_count : ℕ
  avg_relevance : ℚ
  high_impact_count : ℕ
  top_regulator : String
  primary_focus : String

/-- Rounding to one decimal, `round(x, 1)` of `src/app.py` line 342.
Python rounds exact halves to even; this model rounds halves up, a
difference immaterial to the properties checked here. -/
def round1 (q : ℚ) : ℚ := ((round (q * 10) : ℤ) : ℚ) / 10

/-- The summary record the map view builds for one market
(`src/app.py` lines 322-346). -/
def map_row (records : List Article) (m iso : String) : MapRow :=
  let market_df := records.filter (fun r => r.market_name = m)
  { market := m
    iso_code := iso
    article_count := market_df.length
    avg_relevance := round1 (mean_relevance market_df)
    high_impact_count := (market_df.filter (fun r => r.impact_level = "high")).length
    top_regulator := top_regulator_str market_df
    primary_focus := primary_focus market_df }

/-- The loop of the geographic aggregation over a list of markets: for
each market, the dictionary access `country_iso[market]` either yields
the ISO code or raises the built-in `KeyError`, aborting the whole
view with that error (`src/app.py` lines 322-346). -/
def map_data_go (records : List Article) : List String → Except PyError (List MapRow)
  | [] => Except.ok []
  | m :: ms =>
    match country_iso.lookup m with
    | none => Except.error (PyError.keyError m)
    | some iso => (map_data_go records ms).map (fun rest => map_row records m iso :: rest)

/-- The distinct markets of a collection in first-occurrence order,
`df_filtered["market_name"].unique()` (`src/app.py` line 322). -/
def unique_markets (records : List Article) : List String :=
  uniqueFirst (records.map (fun r => r.market_name))

/-- The geographic aggregation `map_data` of `src/app.py` lines 321-346:
one summary record per distinct market of the filtered collection. -/
def map_data (records : List Article) : Except PyError (List MapRow) :=
  map_data_go records (unique_markets records)

/-- Sample record: a high-relevance Japan article (spec section 8
example). -/
def japan9 : Article :=
  { title := "Bank of Japan tightens policy"
    publishedAt := "2025-01-01"
    market_name := "Japan"
    category := "monetary_policy"
    relevance_score := 9
    impact_level := "high"
    key_regulators := ["BOJ"]
    source_name := "Reuters"
    what_happened := "rate decision" }

/-- Sample record: a low-relevance Japan article (spec section 8
example). -/
def japan3 : Article :=
  { title := "Minor note on yen markets"
    publishedAt := "2025-01-02"
    market_name := "Japan"
    category := "monetary_policy"
    relevance_score := 3
    impact_level := "low"
    key_regulators := []
    source_name := "Reuters"
    what_happened := "commentary" }

/-- Sample filter state: Japan only, minimum relevance 5. -/
def fs_ex : FilterState :=
  { selected_markets := ["Japan"]
    min_relevance := 5
    selected_categories := ["monetary_policy"]
    selected_impact := ["high", "medium", "low"] }

/-- Sample filter state with an empty market selection. -/
def fs_none : FilterState :=
  { selected_markets := []
    min_relevance := 0
    selected_categories := ["monetary_policy"]
    selected_impact := ["high", "medium", "low"] }

/-- Sample two-record collection. -/
def df_ex : List Article := [japan9, japan3]

/-- C1: for every filter state and record collection, the filtered
collection is a subset (sublist) of the full collection, its size is at
most the total size, and every filtered record satisfies all four
predicates: market membership, relevance at least the minimum, category
membership and impact-level membership. -/
theorem df_filtered_spec (fs : FilterState) (df : List Article) :
    (df_filtered fs df).Sublist df ∧ (df_filtered fs df).length ≤ df.length ∧
    ∀ r ∈ df_filtered fs df,
      r.market_name ∈ fs.selected_markets ∧ r.relevance_score ≥ fs.min_relevance ∧
      r.category ∈ fs.selected_categories ∧ r.impact_level ∈ fs.selected_impact := by
  refine ⟨List.filter_sublist df, (List.filter_sublist df).length_le, ?_⟩
  intro r hr
  have h := (List.mem_filter.mp hr).2
  simpa using h

/-- Witness for C1 at the spec section 8 example: two Japan records with
relevance 9 and 3 and minimum relevance 5. -/
theorem df_filtered_spec_w :
    (df_filtered fs_ex df_ex).length ≤ df_ex.length ∧
    (japan9.market_name ∈ fs_ex.selected_markets ∧
     japan9.relevance_score ≥ fs_ex.min_relevance ∧
     japan9.category ∈ fs_ex.selected_categories ∧
     japan9.impact_level ∈ fs_ex.selected_impact) :=
  ⟨(df_filtered_spec fs_ex df_ex).2.1, (df_filtered_spec fs_ex df_ex).2.2 japan9 (by decide)⟩

/-- C2: an empty selection on the market, category or impact dimension
yields an empty filtered collection - there is no implicit select-all
fallback for an empty multi-select. -/
theorem df_filtered_empty_selection (fs : FilterState) (df : List Article)
    (h : fs.selected_markets = [] ∨ fs.selected_categories = [] ∨ fs.selected_impact = []) :
    df_filtered fs df = [] := by
  rw [df_filtered, List.filter_eq_nil_iff]
  intro r _
  rcases h with h | h | h <;> simp [h]

/-- Witness for C2: the empty market selection empties the filtered
collection. -/
theorem df_filtered_empty_selection_w : df_filtered fs_none df_ex = [] :=
  df_filtered_empty_selection fs_none df_ex (Or.inl rfl)

/-- C3 (code bug): on an empty filtered collection the key-insights
block of `src/app.py` crashes.  Column 3 evaluates
`high_impact/len(df_filtered)*100`, a division by zero, instead of
reporting a sentinel; the model evaluates to the ZeroDivisionError at
the concrete failing input (full collection `df_ex`, filter state with
an empty market selection). -/
theorem key_insights_empty_crash :
    df_filtered fs_none df_ex = [] ∧
    key_insights df_ex (df_filtered fs_none df_ex) = Except.error PyError.zeroDivisionError :=
  ⟨rfl, rfl⟩

/-- C5 counterexample: a directory with no matching snapshot files makes
`load_data` raise the generic built-in IndexError (from `sorted(...)[-1]`
on an empty list), not a defined NoSnapshotFound loader error. -/
theorem load_data_counterexample :
    load_data ["readme.md"] = Except.error PyError.indexError ∧
    load_data ["readme.md"] ≠ Except.error PyError.noSnapshotFound := by
  constructor
  · rfl
  · intro h
    rw [show load_data ["readme.md"] = Except.error PyError.indexError from rfl] at h
    injection h with h'
    exact PyError.noConfusion h'

/-- C5 (amended): `load_data` selects the lexicographically-latest
filename matching `analyzed_articles_*.json`; with no matching file it
fails, but with the built-in IndexError rather than a defined
NoSnapshotFound error. -/
theorem load_data_latest (files : List String) :
    (files.filter snapshot_pattern = [] → load_data files = Except.error PyError.indexError) ∧
    (files.filter snapshot_pattern ≠ [] → ∃ f, load_data files = Except.ok f) ∧
    (∀ f, load_data files = Except.ok f →
      f ∈ files ∧ snapshot_pattern f = true ∧
      ∀ g ∈ files, snapshot_pattern g = true → str_le g f) := by
  refine ⟨?_, ?_, ?_⟩
  · intro h
    simp [load_data, h]
  · intro h
    have hne : (files.filter snapshot_pattern).insertionSort str_le ≠ [] := by
      intro hnil
      apply h
      have := List.length_insertionSort str_le (files.filter snapshot_pattern)
      rw [hnil] at this
      exact List.length_eq_zero.mp this.symm
    rw [load_data, List.getLast?_eq_getLast _ hne]
    exact ⟨_, rfl⟩
  · intro f hf
    have hne : (files.filter snapshot_pattern).insertionSort str_le ≠ [] := by
      intro hnil
      rw [load_data, hnil] at hf
      exact Except.noConfusion hf
    rw [load_data, List.getLast?_eq_getLast _ hne] at hf
    injection hf with hf'
    have hmem : f ∈ (files.filter snapshot_pattern).insertionSort str_le :=
      hf' ▸ List.getLast_mem hne
    have hmem' : f ∈ files.filter snapshot_pattern :=
      (List.perm_insertionSort str_le _).mem_iff.mp hmem
    have hpat := List.mem_filter.mp hmem'
    refine ⟨hpat.1, hpat.2, ?_⟩
    intro g hg hgp
    have hgmem : g ∈ (files.filter snapshot_pattern).insertionSort str_le :=
      (List.perm_insertionSort str_le _).mem_iff.mpr (List.mem_filter.mpr ⟨hg, hgp⟩)
    have := sorted_le_getLast str_le_refl _
      (List.sorted_insertionSort str_le (files.filter snapshot_pattern)) hne g hgmem
    exact hf' ▸ this

/-- Sample directory listing with two matching snapshot files and one
non-matching file. -/
def snapshot_files : List String :=
  ["analyzed_articles_20240101_080000.json", "readme.md",
   "analyzed_articles_20240202_090000.json"]

/-- Witness for C5 at a concrete directory listing: the later timestamp
is selected and is an upper bound of all matching filenames. -/
theorem load_data_latest_w :
    "analyzed_articles_20240202_090000.json" ∈ snapshot_files ∧
    snapshot_pattern "analyzed_articles_20240202_090000.json" = true ∧
    ∀ g ∈ snapshot_files, snapshot_pattern g = true →
      str_le g "analyzed_articles_20240202_090000.json" :=
  (load_data_latest snapshot_files).2.2 _ rfl

theorem map_data_go_ok (records : List Article) :
    ∀ ms : List String, (∀ m ∈ ms, (country_iso.lookup m).isSome = true) →
      ∃ rows, map_data_go records ms = Except.ok rows ∧
        rows.map (fun x => x.market) = ms := by
  intro ms
  induction ms with
  | nil => intro _; exact ⟨[], rfl, rfl⟩
  | cons m ms ih =>
    intro h
    rcases Option.isSome_iff_exists.mp (h m (List.mem_cons_self m ms)) with ⟨iso, hiso⟩
    rcases ih (fun x hx => h x (List.mem_cons_of_mem m hx)) with ⟨rows, hrows, hmap⟩
    refine ⟨map_row records m iso :: rows, ?_, ?_⟩
    · simp [map_data_go, hiso, hrows, Except.map]
    · simp [hmap, map_row]

theorem map_data_go_err (records : List Article) :
    ∀ ms : List String, (∃ m ∈ ms, country_iso.lookup m = none) →
      ∃ n, country_iso.lookup n = none ∧ n ∈ ms ∧
        map_data_go records ms = Except.error (PyError.keyError n) := by
  intro ms
  induction ms with
  | nil => rintro ⟨m, hm, -⟩; exact absurd hm (List.not_mem_nil m)
  | cons m ms ih =>
    rintro ⟨x, hx, hxl⟩
    by_cases hm : country_iso.lookup m = none
    · exact ⟨m, hm, List.mem_cons_self m ms, by simp [map_data_go, hm]⟩
    · rcases Option.ne_none_iff_exists.mp hm with ⟨iso, hiso⟩
      have hxs : x ∈ ms := by
        rcases List.mem_cons.mp hx with rfl | h
        · exact absurd hxl hm
        · exact h
      rcases ih ⟨x, hxs, hxl⟩ with ⟨n, hn, hnmem, heq⟩
      refine ⟨n, hn, List.mem_cons_of_mem m hnmem, ?_⟩
      simp [map_data_go, ← hiso, heq, Except.map]

/-- C6 (amended): when every market of the filtered collection is one of
the five mapped countries, the geographic aggregation emits exactly one
summary record per distinct market (none silently dropped); when any
unmapped market appears, it fails - but with the built-in KeyError from
the dictionary access `country_iso[market]`, not a defined
UnmappedMarket error. -/
theorem map_data_unmapped (records : List Article) :
    ((∀ m ∈ unique_markets records, (country_iso.lookup m).isSome = true) →
      ∃ rows, map_data records = Except.ok rows ∧
        rows.map (fun x => x.market) = unique_markets records) ∧
    ((∃ m ∈ unique_markets records, country_iso.lookup m = none) →
      ∃ n, country_iso.lookup n = none ∧
        map_data records = Except.error (PyError.keyError n)) := by
  constructor
  · intro h
    exact map_data_go_ok records (unique_markets records) h
  · intro h
    rcases map_data_go_err records (unique_markets records) h with ⟨n, hn, -, heq⟩
    exact ⟨n, hn, heq⟩

/-- Witness for C6 at a concrete collection whose only market is Japan:
the aggregation succeeds with one row per distinct market. -/
theorem map_data_unmapped_w :
    ∃ rows, map_data df_ex = Except.ok rows ∧
      rows.map (fun x => x.market) = unique_markets df_ex :=
  (map_data_unmapped df_ex).1 (by decide)

/-- Sample record whose market is outside the fixed five-country
mapping. -/
def norway1 : Article :=
  { title := "Norges Bank holds rates"
    publishedAt := "2025-01-03"
    market_name := "Norway"
    category := "central_banking"
    relevance_score := 7
    impact_level := "medium"
    key_regulators := ["Norges Bank"]
    source_name := "Reuters"
    what_happened := "rate hold" }

/-- C6 counterexample: an unmapped market makes the aggregation fail
with the built-in KeyError, not with a defined UnmappedMarket error. -/
theorem map_data_counterexample :
    map_data [norway1] = Except.error (PyError.keyError "Norway") ∧
    map_data [norway1] ≠ Except.error (PyError.unmappedMarket "Norway") := by
  constructor
  · rfl
  · intro h
    rw [show map_data [norway1] = Except.error (PyError.keyError "Norway") from rfl] at h
    injection h with h'
    exact PyError.noConfusion h'

/-- C8 (amended): deduplication keys records by the normalized title
(lowercase, keep only lowercase letters, digits and whitespace - the
regex of the source keeps whitespace); a record is retained exactly when
it is the first record of the collection bearing its normalized title,
the retained records form a sublist of the input, and the retained
normalized titles are pairwise distinct. -/
theorem drop_duplicates_spec (l : List Article) (r : Article) :
    (r ∈ drop_duplicates l ↔
      ∃ l1 l2, l = l1 ++ r :: l2 ∧
        normalize_title r.title ∉ l1.map (fun x => normalize_title x.title)) ∧
    (drop_duplicates l).Sublist l ∧
    ((drop_duplicates l).map (fun x => normalize_title x.title)).Nodup := by
  refine ⟨?_, dropDupAux_sublist _ l [], nodup_keys_dropDupAux _ l []⟩
  rw [drop_duplicates, mem_dropDupAux_iff (fun x => normalize_title x.title) l [] r]
  simp

/-- Sample record with an exclamation mark and capitals in its title
(spec section 8 example). -/
def ecb1 : Article :=
  { title := "ECB Raises Rates!"
    publishedAt := "2025-01-04"
    market_name := "Germany"
    category := "monetary_policy"
    relevance_score := 8
    impact_level := "high"
    key_regulators := ["ECB"]
    source_name := "Bloomberg"
    what_happened := "rate hike" }

/-- Sample near-duplicate of `ecb1` with an already-normalized title. -/
def ecb2 : Article :=
  { title := "ecb raises rates"
    publishedAt := "2025-01-04"
    market_name := "Germany"
    category := "monetary_policy"
    relevance_score := 6
    impact_level := "medium"
    key_regulators := ["ECB"]
    source_name := "FT"
    what_happened := "rate hike recap" }

/-- Witness for C8 at the spec section 8 example: of the two ECB
records, exactly the first-seen one is retained. -/
theorem drop_duplicates_spec_w :
    ecb1 ∈ drop_duplicates [ecb1, ecb2] ∧ drop_duplicates [ecb1, ecb2] = [ecb1] :=
  ⟨(drop_duplicates_spec [ecb1, ecb2] ecb1).1.mpr ⟨[], [ecb2], rfl, by simp⟩, by decide⟩

/-- Sample record titled `ab`. -/
def abA : Article :=
  { title := "ab"
    publishedAt := "2025-01-05"
    market_name := "France"
    category := "other"
    relevance_score := 5
    impact_level := "low"
    key_regulators := []
    source_name := "Reuters"
    what_happened := "note" }

/-- Sample record titled `a b`, equal to `ab` once all non-alphanumeric
characters (including the space) are stripped. -/
def abB : Article :=
  { title := "a b"
    publishedAt := "2025-01-05"
    market_name := "France"
    category := "other"
    relevance_score := 5
    impact_level := "low"
    key_regulators := []
    source_name := "Reuters"
    what_happened := "note" }

/-- C8 counterexample: under the normalization the claim describes
(strip all non-alphanumeric characters) the titles `ab` and `a b`
normalize equally, yet the deduplication of the source retains both
records, because its regex keeps whitespace.  So records with equal
claim-normalized titles are not treated as duplicates. -/
theorem normalize_title_counterexample :
    normalize_title_spec abA.title = normalize_title_spec abB.title ∧
    normalize_title abA.title ≠ normalize_title abB.title ∧
    drop_duplicates [abA, abB] = [abA, abB] :=
  ⟨by decide, by decide, by decide⟩

/-- C10: deduplication is idempotent - applying it to its own output
returns that output unchanged. -/
theorem drop_duplicates_idem (l : List Article) :
    drop_duplicates (drop_duplicates l) = drop_duplicates l :=
  dropDupAux_idem _ l []

theorem mem_nlargest_rel {n : ℕ} {l : List Article} {x : Article}
    (h : x ∈ nlargest_rel n l) : x ∈ l := by
  unfold nlargest_rel at h
  exact (List.perm_insertionSort _ l).mem_iff.mp ((List.take_sublist n _).mem h)

theorem length_nlargest_rel (n : ℕ) (l : List Article) :
    (nlargest_rel n l).length = min n l.length := by
  rw [nlargest_rel, List.length_take, List.length_insertionSort]

theorem filter_top_term_ne (l : List Article) (m n : String) (h : m ≠ n) :
    (if l.any (fun r => r.market_name = n)
     then nlargest_rel 5 (l.filter (fun r => r.market_name = n))
     else []).filter (fun r => r.market_name = m) = [] := by
  split
  · rw [List.filter_eq_nil_iff]
    intro a ha
    have h2 : a.market_name = n := by
      have := (List.mem_filter.mp (mem_nlargest_rel ha)).2
      simpa using this
    simp only [h2, decide_eq_true_eq]
    exact fun hh => h hh.symm
  · rfl

theorem filter_top_term_self (l : List Article) (m : String) :
    (if l.any (fun r => r.market_name = m)
     then nlargest_rel 5 (l.filter (fun r => r.market_name = m))
     else []).filter (fun r => r.market_name = m)
      = nlargest_rel 5 (l.filter (fun r => r.market_name = m)) := by
  split
  · rw [List.filter_eq_self]
    intro a ha
    exact (List.mem_filter.mp (mem_nlargest_rel ha)).2
  · rename_i h
    have h0 : l.filter (fun r => r.market_name = m) = [] := by
      rw [List.filter_eq_nil_iff]
      intro a ha hm
      exact h (List.any_eq_true.mpr ⟨a, ha, hm⟩)
    rw [h0]
    rfl

/-- C7: for every collection (standing for the deduplicated,
source-filtered `df_unique`) and every market of the fixed order, the
records of that market in the top-articles concatenation are exactly the
top 5 by relevance of the qualifying records of that market; in particular
there are at most 5 of them, fewer exactly when fewer qualify, and a
market with zero qualifying records contributes nothing. -/
theorem top_articles_per_market (l : List Article) (m : String)
    (hm : m ∈ tab4_market_order) :
    ((top_articles l).filter (fun r => r.market_name = m)
      = nlargest_rel 5 (l.filter (fun r => r.market_name = m))) ∧
    ((top_articles l).filter (fun r => r.market_name = m)).length
      = min 5 (l.filter (fun r => r.market_name = m)).length := by
  have key : (top_articles l).filter (fun r => r.market_name = m)
      = nlargest_rel 5 (l.filter (fun r => r.market_name = m)) := by
    unfold top_articles tab4_market_order
    simp only [List.map_cons, List.map_nil, List.flatten_cons, List.flatten_nil,
      List.filter_append, List.append_nil]
    fin_cases hm
    · rw [filter_top_term_self l "United States",
        filter_top_term_ne l "United States" "United Kingdom" (by decide),
        filter_top_term_ne l "United States" "Germany" (by decide),
        filter_top_term_ne l "United States" "Japan" (by decide),
        filter_top_term_ne l "United States" "France" (by decide)]
      simp
    · rw [filter_top_term_self l "United Kingdom",
        filter_top_term_ne l "United Kingdom" "United States" (by decide),
        filter_top_term_ne l "United Kingdom" "Germany" (by decide),
        filter_top_term_ne l "United Kingdom" "Japan" (by decide),
        filter_top_term_ne l "United Kingdom" "France" (by decide)]
      simp
    · rw [filter_top_term_self l "Germany",
        filter_top_term_ne l "Germany" "United States" (by decide),
        filter_top_term_ne l "Germany" "United Kingdom" (by decide),
        filter_top_term_ne l "Germany" "Japan" (by decide),
        filter_top_term_ne l "Germany" "France" (by decide)]
      simp
    · rw [filter_top_term_self l "Japan",
        filter_top_term_ne l "Japan" "United States" (by decide),
        filter_top_term_ne l "Japan" "United Kingdom" (by decide),
        filter_top_term_ne l "Japan" "Germany" (by decide),
        filter_top_term_ne l "Japan" "France" (by decide)]
      simp
    · rw [filter_top_term_self l "France",
        filter_top_term_ne l "France" "United States" (by decide),
        filter_top_term_ne l "France" "United Kingdom" (by decide),
        filter_top_term_ne l "France" "Germany" (by decide),
        filter_top_term_ne l "France" "Japan" (by decide)]
      simp
  exact ⟨key, by rw [key, length_nlargest_rel]⟩

/-- Witness for C7 at a concrete collection and the market Japan. -/
theorem top_articles_per_market_w :
    ((top_articles df_ex).filter (fun r => r.market_name = "Japan")
      = nlargest_rel 5 (df_ex.filter (fun r => r.market_name = "Japan"))) ∧
    ((top_articles df_ex).filter (fun r => r.market_name = "Japan")).length
      = min 5 (df_ex.filter (fun r => r.market_name = "Japan")).length :=
  top_articles_per_market df_ex "Japan" (by decide)

/-- C9: in the market summary, row counts sum to the filtered collection
size, the rows are sorted by article count descending, and each row
carries the article count and the mean relevance of its market. -/
theorem market_overview_spec (records : List Article) :
    (((market_overview records).map (fun row => row.article_count)).sum = records.length) ∧
    ((market_overview records).Sorted (fun a b => b.article_count ≤ a.article_count)) ∧
    (∀ row ∈ market_overview records,
      row.article_count = (records.filter (fun r => r.market_name = row.market)).length ∧
      row.avg_relevance = mean_relevance (records.filter (fun r => r.market_name = row.market))) := by
  have hnd : ((uniqueFirst (records.map (fun r => r.market_name))).insertionSort str_le).Nodup :=
    ((List.perm_insertionSort str_le _).nodup_iff).mpr (nodup_uniqueFirst _)
  have hcov : ∀ r ∈ records,
      r.market_name ∈ (uniqueFirst (records.map (fun r => r.market_name))).insertionSort str_le := by
    intro r hr
    rw [(List.perm_insertionSort str_le _).mem_iff, mem_uniqueFirst]
    exact List.mem_map.mpr ⟨r, hr, rfl⟩
  refine ⟨?_, ?_, ?_⟩
  · have hperm : ((market_overview records).map (fun row => row.article_count)).Perm
        ((((uniqueFirst (records.map (fun r => r.market_name))).insertionSort str_le).map
          (market_row_of records)).map (fun row => row.article_count)) :=
      (List.perm_insertionSort _ _).map _
    rw [hperm.sum_eq, List.map_map]
    have hc : ((fun row : MarketRow => row.article_count) ∘ market_row_of records)
        = fun m => (records.filter (fun r => r.market_name = m)).length := rfl
    rw [hc]
    exact sum_map_length_filter (fun r => r.market_name) _ hnd records hcov
  · haveI h1 : IsTotal MarketRow (fun a b => b.article_count ≤ a.article_count) :=
      ⟨fun a b => le_total b.article_count a.article_count⟩
    haveI h2 : IsTrans MarketRow (fun a b => b.article_count ≤ a.article_count) :=
      ⟨fun _ _ _ hab hbc => le_trans hbc hab⟩
    exact List.sorted_insertionSort _ _
  · intro row hrow
    have hmem : row ∈ ((uniqueFirst (records.map (fun r => r.market_name))).insertionSort
        str_le).map (market_row_of records) :=
      (List.perm_insertionSort _ _).mem_iff.mp hrow
    rcases List.mem_map.mp hmem with ⟨m, _, rfl⟩
    exact ⟨rfl, rfl⟩

/-- Witness for C9 at a concrete collection: the row counts of the
market summary sum to the collection size. -/
theorem market_overview_spec_w :
    ((market_overview df_ex).map (fun row => row.article_count)).sum = df_ex.length :=
  (market_overview_spec df_ex).1

theorem mem_ct_cats {records : List Article} {c : String} :
    c ∈ ct_cats records ↔ c ∈ records.map (fun r => r.category) := by
  rw [ct_cats, (List.perm_insertionSort str_le _).mem_iff, mem_uniqueFirst]

theorem nodup_ct_cats (records : List Article) : (ct_cats records).Nodup :=
  ((List.perm_insertionSort str_le _).nodup_iff).mpr (nodup_uniqueFirst _)

theorem mem_ct_row_order {records : List Article} {m : String} :
    m ∈ ct_row_order records ↔ m ∈ records.map (fun r => r.market_name) := by
  rw [ct_row_order, (List.perm_insertionSort _ _).mem_iff, ct_markets_sorted,
    (List.perm_insertionSort str_le _).mem_iff, mem_uniqueFirst]

theorem nodup_ct_row_order (records : List Article) : (ct_row_order records).Nodup :=
  ((List.perm_insertionSort _ _).nodup_iff).mpr
    (((List.perm_insertionSort str_le _).nodup_iff).mpr (nodup_uniqueFirst _))

theorem ct_cell_eq_filter (records : List Article) (m c : String) :
    ct_cell records m c
      = ((records.filter (fun r => r.market_name = m)).filter
          (fun r => r.category = c)).length := by
  rw [ct_cell, List.filter_filter]
  congr 1
  apply List.filter_congr
  intro r _
  by_cases h1 : r.market_name = m <;> by_cases h2 : r.category = c <;> simp [h1, h2]

theorem sum_ct_cells (records : List Article) (m : String) :
    ((ct_cats records).map (fun c => ct_cell records m c)).sum
      = (records.filter (fun r => r.market_name = m)).length := by
  have h1 : ∀ c ∈ ct_cats records, ct_cell records m c
      = ((records.filter (fun r => r.market_name = m)).filter
          (fun r => r.category = c)).length :=
    fun c _ => ct_cell_eq_filter records m c
  rw [List.map_congr_left h1]
  have hcov : ∀ a ∈ records.filter (fun r => r.market_name = m),
      a.category ∈ ct_cats records := by
    intro a ha
    rw [mem_ct_cats]
    exact List.mem_map.mpr ⟨a, (List.filter_sublist records).mem ha, rfl⟩
  exact sum_map_length_filter (fun r => r.category) (ct_cats records)
    (nodup_ct_cats records) (records.filter (fun r => r.market_name = m)) hcov

theorem sum_ct_rows (records : List Article) :
    ((ct_row_order records).map
      (fun m => (records.filter (fun r => r.market_name = m)).length)).sum
      = records.length := by
  have hcov : ∀ a ∈ records, a.market_name ∈ ct_row_order records := by
    intro a ha
    rw [mem_ct_row_order]
    exact List.mem_map.mpr ⟨a, ha, rfl⟩
  exact sum_map_length_filter (fun r => r.market_name) (ct_row_order records)
    (nodup_ct_row_order records) records hcov

theorem sum_map_erase_fold {κ : Type} [DecidableEq κ] (g : κ → ℕ) (ks : List κ)
    (hnd : ks.Nodup) (b1 b2 : κ) (hb1 : b1 ∈ ks) (hb2 : b2 ∈ ks) (hne : b1 ≠ b2) :
    ((ks.erase b2).map (fun c => if c = b1 then g b1 + g b2 else g c)).sum
      = (ks.map g).sum := by
  have hR : (ks.map g).sum = g b2 + ((ks.erase b2).map g).sum := by
    have hp := (List.perm_cons_erase hb2).map g
    rw [hp.sum_eq]
    simp
  have hpt : ∀ c ∈ ks.erase b2,
      (if c = b1 then g b1 + g b2 else g c) = g c + (if b1 = c then g b2 else 0) := by
    intro c _
    by_cases hcb : c = b1
    · subst hcb
      simp
    · have hbc : b1 ≠ c := fun hh => hcb hh.symm
      simp [hcb, hbc]
  rw [List.map_congr_left hpt, List.sum_map_add, sum_map_ite_count]
  have hcnt : (ks.erase b2).count b1 = 1 :=
    List.count_eq_one_of_mem (hnd.erase b2) ((List.mem_erase_of_ne hne).mpr hb1)
  rw [hcnt, hR]
  omega

/-- C4 (amended): whenever the cross-tabulation (with the
cross_border_investment fold applied when that category is present) is
produced at all, every cell other than the `other` column carries the
plain (market, category) count, the fold adds the
cross_border_investment counts into the `other` column and drops the
cross_border_investment column, and the sum of all cell counts equals
the filtered collection size.  The fold is only produced when an `other`
column exists; see the counterexample for the KeyError otherwise. -/
theorem category_market_sum (records : List Article) (t : CrossTab)
    (h : category_market records = Except.ok t) :
    ((t.rows.map (fun m => (t.cols.map (fun c => t.cell m c)).sum)).sum = records.length) ∧
    (∀ m c, c ≠ "other" → t.cell m c = ct_cell records m c) ∧
    ("cross_border_investment" ∈ ct_cats records →
      "other" ∈ t.cols ∧ "cross_border_investment" ∉ t.cols ∧
      ∀ m, t.cell m "other"
        = ct_cell records m "other" + ct_cell records m "cross_border_investment") ∧
    ("cross_border_investment" ∉ ct_cats records →
      t.cols = ct_cats records ∧ ∀ m c, t.cell m c = ct_cell records m c) := by
  simp only [category_market] at h
  by_cases h1 : "cross_border_investment" ∈ ct_cats records
  · rw [if_pos h1] at h
    by_cases h2 : "other" ∈ ct_cats records
    · rw [if_pos h2] at h
      injection h with h'
      subst h'
      refine ⟨?_, ?_, ?_, ?_⟩
      · have hin : ∀ m ∈ ct_row_order records,
            (((ct_cats records).erase "cross_border_investment").map
              (fun c => if c = "other"
                then ct_cell records m "other" + ct_cell records m "cross_border_investment"
                else ct_cell records m c)).sum
            = (records.filter (fun r => r.market_name = m)).length := by
          intro m _
          rw [sum_map_erase_fold (ct_cell records m) (ct_cats records) (nodup_ct_cats records)
            "other" "cross_border_investment" h2 h1 (by decide)]
          exact sum_ct_cells records m
        rw [List.map_congr_left hin]
        exact sum_ct_rows records
      · intro m c hc
        exact if_neg hc
      · intro _
        refine ⟨?_, ?_, fun m => rfl⟩
        · exact (List.Nodup.mem_erase_iff (nodup_ct_cats records)).mpr ⟨by decide, h2⟩
        · intro hmem
          exact ((List.Nodup.mem_erase_iff (nodup_ct_cats records)).mp hmem).1 rfl
      · intro hno
        exact absurd h1 hno
    · rw [if_neg h2] at h
      exact Except.noConfusion h
  · rw [if_neg h1] at h
    injection h with h'
    subst h'
    refine ⟨?_, fun m c _ => rfl, fun hmem => absurd hmem h1, fun _ => ⟨rfl, fun m c => rfl⟩⟩
    have hin : ∀ m ∈ ct_row_order records,
        ((ct_cats records).map (fun c => ct_cell records m c)).sum
        = (records.filter (fun r => r.market_name = m)).length :=
      fun m _ => sum_ct_cells records m
    rw [List.map_congr_left hin]
    exact sum_ct_rows records

/-- Sample record whose category is cross_border_investment, in a
collection with no `other` category. -/
def cbi1 : Article :=
  { title := "Cross-border capital rules tighten"
    publishedAt := "2025-01-06"
    market_name := "France"
    category := "cross_border_investment"
    relevance_score := 6
    impact_level := "medium"
    key_regulators := ["AMF"]
    source_name := "Reuters"
    what_happened := "new rules" }

/-- C4 counterexample: on a filtered collection containing a
cross_border_investment article but no `other` article, the fold of
`src/app.py` lines 271-273 evaluates `category_market["other"]` on a
table without that column and raises KeyError; no cross-tabulation is
produced at all, so the claimed fold-and-sum behaviour fails at this
input. -/
theorem category_market_counterexample :
    category_market [cbi1] = Except.error (PyError.keyError "other") ∧
    ∀ t : CrossTab, category_market [cbi1] ≠ Except.ok t := by
  constructor
  · rfl
  · intro t ht
    rw [show category_market [cbi1] = Except.error (PyError.keyError "other") from rfl] at ht
    exact Except.noConfusion ht

/-- The cross-tabulation the source produces on the sample collection
`df_ex` (which has no cross_border_investment category). -/
def c4_tab : CrossTab :=
  { rows := ct_row_order df_ex
    cols := ct_cats df_ex
    cell := fun m c => ct_cell df_ex m c }

/-- Witness for C4 at the sample collection: the produced table exists
and its cell counts sum to the collection size. -/
theorem category_market_sum_w :
    ((c4_tab.rows.map (fun m => (c4_tab.cols.map (fun c => c4_tab.cell m c)).sum)).sum
        = df_ex.length) ∧
    ∀ m c, c ≠ "other" → c4_tab.cell m c = ct_cell df_ex m c :=
  ⟨(category_market_sum df_ex c4_tab rfl).1, (category_market_sum df_ex c4_tab rfl).2.1⟩
